import Mathlib

/-!
Verification of the ergo repository's transformation-and-sampling core
(`ergo/metaculus.py`, `ergo/foretold.py`) against its specification.

Conventions of the shallow embedding:
* Python floats are modelled as real numbers (`ℝ`) where transcendental
  functions (`exp`, `log`, `**`) occur, and as rationals (`ℚ`) where the
  code only uses field operations, so that the latter definitions evaluate.
* Sampling primitives (`ergo.ppl.uniform`, `np.random.logistic`, ...)
  are modelled by passing the underlying random draws as explicit inputs;
  a `np.random.logistic(loc, scale)` call receives its standard logistic
  variate as input and returns `loc + scale * variate`.
* Fallible operations (indexing an empty list, dividing by zero, missing
  attributes) return `Option`/`Except` values.
-/

/-! ## Definitions -/

/-! ### ForetoldQuestion.sample_community (ergo/foretold.py, lines 65-86)

`np.argmax(ys > y)` returns the first index whose comparison is true, and
`0` when every comparison is false.  `firstIdxAbove` is the "first index
with `ys[i] > u`" search; `selectedIndex` adds numpy's all-false fallback.
-/

/-- First index `i` with `u < ys[i]`, if any (the smallest index whose
entry exceeds the uniform draw). -/
def firstIdxAbove (u : ℚ) : List ℚ → Option ℕ
  | [] => none
  | v :: rest => if u < v then some 0 else (firstIdxAbove u rest).map (· + 1)

/-- `np.argmax(ys > y)`: first true index, or `0` when all comparisons are
false. -/
def selectedIndex (ys : List ℚ) (u : ℚ) : ℕ :=
  (firstIdxAbove u ys).getD 0

/-- `ForetoldQuestion.sample_community`, with the uniform draw `u` passed
in explicitly.  Indexing an out-of-range position and dividing by a zero
denominator are the fallible operations, modelled by `none`. -/
def foretold_sample_community (xs ys : List ℚ) (u : ℚ) : Option ℚ :=
  let i := selectedIndex ys u
  if i = 0 then xs.head?
  else
    match xs[i-1]?, xs[i]?, ys[i-1]?, ys[i]? with
    | some x0, some x1, some y0, some y1 =>
        if y1 - y0 = 0 then none
        else some (x1 * ((u - y0) / (y1 - y0)) + x0 * (1 - (u - y0) / (y1 - y0)))
    | _, _, _, _ => none

/-- Does the sampler select an index `i > 0` whose CDF segment is flat
(`ys[i] == ys[i-1]`)?  Division by zero would occur exactly here. -/
def flatSelected (ys : List ℚ) (u : ℚ) : Bool :=
  let i := selectedIndex ys u
  decide (0 < i ∧ ys.getD i 0 = ys.getD (i - 1) 0)

/-- The spec's description of the sampler ("inverse-CDF with left-edge
bins"), written from its words: find the smallest index `i` with
`ys[i] > u`; if `i == 0` return `xs[0]`; otherwise interpolate with
`w = (u - ys[i-1]) / (ys[i] - ys[i-1])`, returning `xs[i]*w + xs[i-1]*(1-w)`. -/
def inverse_cdf_sample_spec (xs ys : List ℚ) (u : ℚ) : Option ℚ :=
  match firstIdxAbove u ys with
  | none => none
  | some 0 => some (xs.getD 0 0)
  | some (j+1) =>
      let y0 := ys.getD j 0
      let y1 := ys.getD (j+1) 0
      let w := (u - y0) / (y1 - y0)
      some (xs.getD (j+1) 0 * w + xs.getD j 0 * (1 - w))

/-! ### Scale transforms (ergo/metaculus.py)

`LinearQuestion.normalize_samples` / `denormalize_samples` (lines 714-733)
and `LogQuestion.normalized_from_true_value` / `true_from_normalized_value`
(lines 782-807) act elementwise on sample vectors; they are embedded as
the scalar maps applied to each element. -/

/-- `possibilities["scale"]` of a linear or logarithmic question. -/
structure QuestionRange where
  min : ℝ
  max : ℝ

/-- `ContinuousQuestion.question_range_width` (line 359). -/
noncomputable def question_range_width (q : QuestionRange) : ℝ :=
  q.max - q.min

/-- `LinearQuestion.normalize_samples` (line 714), elementwise. -/
noncomputable def LinearQuestion.normalize_samples (q : QuestionRange) (x : ℝ) : ℝ :=
  (x - q.min) / question_range_width q

/-- `LinearQuestion.denormalize_samples` (line 723), elementwise. -/
noncomputable def LinearQuestion.denormalize_samples (q : QuestionRange) (y : ℝ) : ℝ :=
  q.min + question_range_width q * y

/-- `LogQuestion.normalized_from_true_value` (line 782); `r` is the
question's `deriv_ratio` and `math.log(x, r)` is `Real.logb r x`. -/
noncomputable def LogQuestion.normalized_from_true_value
    (q : QuestionRange) (r x : ℝ) : ℝ :=
  let shifted := x - q.min
  let numerator := shifted * (r - 1)
  let scaled := numerator / question_range_width q
  let timber := 1 + scaled
  let floored_timber := max timber 1e-9
  Real.logb r floored_timber

/-- `LogQuestion.true_from_normalized_value` (line 796); Python `r ** y`
with positive float base is `Real.rpow`. -/
noncomputable def LogQuestion.true_from_normalized_value
    (q : QuestionRange) (r y : ℝ) : ℝ :=
  let deriv_term := (r ^ y - 1) / (r - 1)
  let scaled := question_range_width q * deriv_term
  q.min + scaled

/-- Date range of a `LinearDateQuestion` (`question_range` property,
lines 834-850): dates are modelled as integer day numbers and
`date_range` is the day span `date_max - date_min`. -/
structure DateQuestionRange where
  date_min : ℤ
  date_max : ℤ

/-- `qr["date_range"] = (qr["date_max"] - qr["date_min"]).days`. -/
def DateQuestionRange.date_range (q : DateQuestionRange) : ℤ :=
  q.date_max - q.date_min

/-- Python's builtin `round`: round half to even. -/
def py_round (q : ℚ) : ℤ :=
  let f := Int.floor q
  let frac := q - f
  if frac < 1/2 then f
  else if 1/2 < frac then f + 1
  else if f % 2 = 0 then f else f + 1

/-- `LinearDateQuestion.normalize_dates` (line 870), elementwise:
`(d - date_min).days / date_range`. -/
def LinearDateQuestion.normalize_dates (q : DateQuestionRange) (d : ℤ) : ℚ :=
  ((d - q.date_min : ℤ) : ℚ) / (q.date_range : ℚ)

/-- `LinearDateQuestion.denormalize_samples` (line 882), elementwise:
`date_min + timedelta(days=round(date_range * sample))`. -/
def LinearDateQuestion.denormalize_samples (q : DateQuestionRange) (y : ℚ) : ℤ :=
  q.date_min + py_round ((q.date_range : ℚ) * y)

/-! ### ContinuousQuestion.get_submission_params (lines 372-421) -/

/-- `ergo.logistic.LogisticParams` (declared outside src; a dataclass
with fields `loc` and `scale`, used here only as a record). -/
structure LogisticParams where
  loc : ℝ
  scale : ℝ

/-- `SubmissionLogisticParams` (line 305): `LogisticParams` plus the
`low`/`high` bounds. -/
structure SubmissionLogisticParams where
  loc : ℝ
  scale : ℝ
  low : ℝ
  high : ℝ

/-- CDF of `scipy.stats.logistic(loc, scale)`. -/
noncomputable def scipy_logistic_cdf (loc scale x : ℝ) : ℝ :=
  1 / (1 + Real.exp (-(x - loc) / scale))

/-- `ContinuousQuestion.get_submission_params` (lines 372-421).  Note the
source builds `distribution = stats.logistic(logistic_params.loc,
logistic_params.scale)` at line 382, before clipping, so `low` and `high`
are computed from the cdf of the unclipped parameters. -/
noncomputable def ContinuousQuestion.get_submission_params
    (low_open high_open : Bool) (p : LogisticParams) : SubmissionLogisticParams :=
  let max_loc : ℝ := 3
  let clipped_loc := min p.loc max_loc
  let min_scale : ℝ := 0.01
  let max_scale : ℝ := 10
  let clipped_scale := min (max p.scale min_scale) max_scale
  let low : ℝ :=
    if low_open then
      let min_open_low : ℝ := 0.01
      max (scipy_logistic_cdf p.loc p.scale 0) min_open_low
    else 0
  let high : ℝ :=
    if high_open then
      let min_open_high := low + 0.01
      let max_open_high : ℝ := 0.99
      max (min (scipy_logistic_cdf p.loc p.scale 1) max_open_high) min_open_high
    else 1
  SubmissionLogisticParams.mk clipped_loc clipped_scale low high

/-- The spec's version of `get_submission_params`, written from its
words: "`low = max(CDF(0), min_open_low)` where `CDF` is the logistic CDF
of the *clipped* loc/scale", and likewise for `high` at 1. -/
noncomputable def get_submission_params_clipped_cdf_spec
    (low_open high_open : Bool) (p : LogisticParams) : SubmissionLogisticParams :=
  let clipped_loc := min p.loc 3
  let clipped_scale := min (max p.scale 0.01) 10
  let low : ℝ :=
    if low_open then max (scipy_logistic_cdf clipped_loc clipped_scale 0) 0.01
    else 0
  let high : ℝ :=
    if high_open then
      max (min (scipy_logistic_cdf clipped_loc clipped_scale 1) 0.99) (low + 0.01)
    else 1
  SubmissionLogisticParams.mk clipped_loc clipped_scale low high

/-! ### ContinuousQuestion.sample_normalized_community and
sample_community (lines 440-490), LinearDateQuestion.sample_community
(lines 902-910)

The observable state of a question is the part of `self.data` these
methods read (`prediction_histogram`, the latest community percentiles)
plus the `functools.lru_cache(None)` entry of `community_dist_in_range`,
which is keyed by the question object itself.  Missing question data
(`prediction_histogram` absent from `self.data`) surfaces through
`MetaculusQuestion.__getattr__` as an `AttributeError`. -/

/-- Python exceptions raised on these paths. -/
inductive PyErr where
  | valueError (msg : String)
  | attributeError (name : String)
deriving DecidableEq, Repr

/-- Question state read by the community samplers.  A histogram row is an
`(x, y1, y2)` triple; only `p[2]` (the density) is consumed.
`latest_low`/`latest_high` are `latest_community_percentiles["low"]` and
`["high"]`.  `dist_cache` is the `lru_cache` entry of
`community_dist_in_range`. -/
structure QuestionState where
  prediction_histogram : Option (List (ℚ × ℚ × ℚ))
  latest_low : ℚ
  latest_high : ℚ
  dist_cache : Option (List ℚ)
deriving DecidableEq, Repr

/-- `y2 = [p[2] for p in self.prediction_histogram]` (line 437): the
probability vector of the categorical built from a histogram. -/
def histogram_densities (h : List (ℚ × ℚ × ℚ)) : List ℚ :=
  h.map (fun p => p.2.2)

/-- `ContinuousQuestion.community_dist_in_range` (lines 429-438), a
method decorated with `functools.lru_cache(None)`: on a cache hit the
memoized categorical is returned unchanged; otherwise the histogram is
read (an absent histogram raises `AttributeError` via `__getattr__`) and
the result is stored in the cache.  The categorical distribution is
represented by its probability vector. -/
def ContinuousQuestion.community_dist_in_range
    (q : QuestionState) : Except PyErr (List ℚ × QuestionState) :=
  match q.dist_cache with
  | some d => Except.ok (d, q)
  | none =>
      match q.prediction_histogram with
      | none => Except.error (PyErr.attributeError "prediction_histogram")
      | some h =>
          let d := histogram_densities h
          Except.ok (d, { q with dist_cache := some d })

/-- `MetaculusQuestion.refresh_question` (lines 180-185): replaces
`self.data` (hence the histogram and percentiles) wholesale.  The
`lru_cache` of `community_dist_in_range` is keyed by the question object,
which is unchanged, so the cache entry survives the refresh. -/
def MetaculusQuestion.refresh_question (q : QuestionState)
    (newHist : Option (List (ℚ × ℚ × ℚ))) (newLow newHigh : ℚ) : QuestionState :=
  { prediction_histogram := newHist, latest_low := newLow,
    latest_high := newHigh, dist_cache := q.dist_cache }

/-- `outside_range_scale = 0.02` (line 455). -/
def outside_range_scale : ℚ := 0.02

/-- `np.random.logistic(loc, scale)` given its standard logistic variate
`l`: the draw is `loc + scale * l`. -/
def np_random_logistic (loc scale l : ℚ) : ℚ :=
  loc + scale * l

/-- `sample_below_range = -abs(np.random.logistic(0, outside_range_scale))`
(line 457), given the underlying standard logistic variate. -/
def sample_below_range (l : ℚ) : ℚ :=
  -|np_random_logistic 0 outside_range_scale l|

/-- `sample_above_range = abs(np.random.logistic(1, outside_range_scale))`
(line 458), given the underlying standard logistic variate.  Note the
source takes the absolute value of a logistic centred at 1; it does not
add 1 to the absolute value of a logistic centred at 0. -/
def sample_above_range (l : ℚ) : ℚ :=
  |np_random_logistic 1 outside_range_scale l|

/-- Modelled from the spec: `ergo.ppl.sample` on a categorical
distribution (ergo/ppl.py is not under src/).  Spec 4.2: "Build a
categorical distribution over histogram bucket indices weighted by bucket
density; draw one bucket index" — the draw picks the first index whose
cumulative weight exceeds `u * total`. -/
def categorical_index (t : ℚ) : List ℚ → ℕ
  | [] => 0
  | p :: rest => if t < p then 0 else categorical_index (t - p) rest + 1

/-- Modelled from the spec: one categorical draw from probability weights
`probs` driven by the uniform draw `u`. -/
def categorical_sample (probs : List ℚ) (u : ℚ) : ℕ :=
  categorical_index (u * probs.sum) probs

/-- Modelled from the spec: `ergo.ppl.random_choice(vals, ps)` (spec 4.2
step 3, "a single categorical draw weighted by
`(p_below, p_in_range, p_above)`"), driven by the uniform draw `u`. -/
def ppl_random_choice (vals ps : List ℚ) (u : ℚ) : ℚ :=
  vals.getD (categorical_sample ps u) 0

/-- `ContinuousQuestion.sample_normalized_community` (lines 440-472).
`draws` supplies the underlying random variates in the order the source
consumes them: the two `np.random.logistic` variates (lines 457-458),
then the categorical draw for `ppl.sample` (line 459), then the
`ppl.random_choice` draw (line 468).  The returned `ℕ` counts the draws
consumed before the call returned or raised. -/
def ContinuousQuestion.sample_normalized_community
    (q : QuestionState) (draws : List ℚ) : Except PyErr (ℚ × QuestionState) × ℕ :=
  match draws with
  | d1 :: d2 :: rest =>
      let below := sample_below_range d1
      let above := sample_above_range d2
      (match ContinuousQuestion.community_dist_in_range q with
       | Except.error e => (Except.error e, 2)
       | Except.ok (probs, q2) =>
           match rest with
           | d3 :: rest2 =>
               let idx := categorical_sample probs d3
               (match q2.prediction_histogram with
                | none => (Except.error (PyErr.attributeError "prediction_histogram"), 3)
                | some h =>
                    let inRange := (idx : ℚ) / (h.length : ℚ)
                    let pBelow := q2.latest_low
                    let pAbove := 1 - q2.latest_high
                    let pInRange := 1 - pBelow - pAbove
                    match rest2 with
                    | d4 :: _ =>
                        (Except.ok
                          (ppl_random_choice [below, inRange, above]
                            [pBelow, pInRange, pAbove] d4, q2), 4)
                    | [] => (Except.error (PyErr.valueError "rng exhausted"), 3))
           | [] => (Except.error (PyErr.valueError "rng exhausted"), 2))
  | _ => (Except.error (PyErr.valueError "rng exhausted"), 0)

/-- `ContinuousQuestion.sample_community` (lines 474-490): guarded by
`has_predictions` (`hasattr(self, "prediction_histogram")`); raises
`ValueError` before any sampling work when there are no predictions.
`denorm` stands for the subclass's `denormalize_samples`. -/
def ContinuousQuestion.sample_community (denorm : ℚ → ℚ)
    (q : QuestionState) (draws : List ℚ) : Except PyErr (ℚ × QuestionState) × ℕ :=
  if q.prediction_histogram.isSome then
    match ContinuousQuestion.sample_normalized_community q draws with
    | (Except.ok (s, q2), n) => (Except.ok (denorm s, q2), n)
    | (Except.error e, n) => (Except.error e, n)
  else
    (Except.error (PyErr.valueError
      "There are currently no predictions for this question"), 0)

/-- `LinearDateQuestion.sample_community` (lines 902-910): overrides the
base method and calls `sample_normalized_community` directly, without the
`has_predictions` guard. -/
def LinearDateQuestion.sample_community (denorm : ℚ → ℚ)
    (q : QuestionState) (draws : List ℚ) : Except PyErr (ℚ × QuestionState) × ℕ :=
  match ContinuousQuestion.sample_normalized_community q draws with
  | (Except.ok (s, q2), n) => (Except.ok (denorm s, q2), n)
  | (Except.error e, n) => (Except.error e, n)

/-! ## Helper lemmas -/

lemma firstIdxAbove_eq_none {u : ℚ} {ys : List ℚ} (h : ∀ v ∈ ys, v ≤ u) :
    firstIdxAbove u ys = none := by
  induction ys with
  | nil => rfl
  | cons v rest ih =>
      have hv : v ≤ u := h v (List.mem_cons_self v rest)
      have hrest : ∀ w ∈ rest, w ≤ u := fun w hw => h w (List.mem_cons_of_mem v hw)
      simp [firstIdxAbove, not_lt.mpr hv, ih hrest]

lemma firstIdxAbove_isSome {u : ℚ} {ys : List ℚ} (h : ∃ v ∈ ys, u < v) :
    (firstIdxAbove u ys).isSome = true := by
  induction ys with
  | nil => simp at h
  | cons v rest ih =>
      by_cases hv : u < v
      · simp [firstIdxAbove, hv]
      · obtain ⟨w, hw, hwu⟩ := h
        rcases List.mem_cons.mp hw with rfl | hw2
        · exact absurd hwu hv
        · have hs := ih ⟨w, hw2, hwu⟩
          rcases Option.isSome_iff_exists.mp hs with ⟨j, hj⟩
          simp [firstIdxAbove, hv, hj]

lemma firstIdxAbove_spec {u : ℚ} {ys : List ℚ} {i : ℕ}
    (h : firstIdxAbove u ys = some i) :
    i < ys.length ∧ (∀ y1, ys[i]? = some y1 → u < y1) ∧
      (∀ j, j < i → ∀ y0, ys[j]? = some y0 → y0 ≤ u) := by
  induction ys generalizing i with
  | nil => simp [firstIdxAbove] at h
  | cons v rest ih =>
      by_cases hv : u < v
      · simp [firstIdxAbove, hv] at h
        subst h
        refine ⟨by simp, ?_, ?_⟩
        · intro y1 h1
          rw [List.getElem?_cons_zero] at h1
          cases h1
          exact hv
        · intro j hj
          omega
      · simp [firstIdxAbove, hv] at h
        obtain ⟨j, hj, rfl⟩ := h
        obtain ⟨hlen, habove, hbelow⟩ := ih hj
        refine ⟨by simpa using hlen, ?_, ?_⟩
        · intro y1 h1
          rw [List.getElem?_cons_succ] at h1
          exact habove y1 h1
        · intro k hk y0 h0
          match k with
          | 0 =>
              rw [List.getElem?_cons_zero] at h0
              cases h0
              exact not_lt.mp hv
          | Nat.succ m =>
              rw [List.getElem?_cons_succ] at h0
              exact hbelow m (by omega) y0 h0

lemma selectedIndex_pos {ys : List ℚ} {u : ℚ} (hne : selectedIndex ys u ≠ 0) :
    firstIdxAbove u ys = some (selectedIndex ys u) := by
  unfold selectedIndex at hne ⊢
  cases hfa : firstIdxAbove u ys with
  | none => rw [hfa] at hne; simp at hne
  | some j => rfl

lemma foretold_sample_eq_head {xs ys : List ℚ} {u : ℚ}
    (hi : selectedIndex ys u = 0) :
    foretold_sample_community xs ys u = xs.head? := by
  simp [foretold_sample_community, hi]

lemma foretold_sample_eq_interp {xs ys : List ℚ} {u x0 x1 y0 y1 : ℚ}
    (hne : selectedIndex ys u ≠ 0)
    (hx0 : xs[selectedIndex ys u - 1]? = some x0)
    (hx1 : xs[selectedIndex ys u]? = some x1)
    (hy0 : ys[selectedIndex ys u - 1]? = some y0)
    (hy1 : ys[selectedIndex ys u]? = some y1)
    (hd : ¬(y1 - y0 = 0)) :
    foretold_sample_community xs ys u =
      some (x1 * ((u - y0) / (y1 - y0)) + x0 * (1 - (u - y0) / (y1 - y0))) := by
  simp only [foretold_sample_community, if_neg hne, hx0, hx1, hy0, hy1, if_neg hd]

/-- Straddling facts at a positive selected index: the entry at the index
exceeds `u`, the one before it does not. -/
lemma selectedIndex_straddle {ys : List ℚ} {u : ℚ}
    (hne : selectedIndex ys u ≠ 0) :
    selectedIndex ys u < ys.length ∧
      ys.getD (selectedIndex ys u - 1) 0 ≤ u ∧
      u < ys.getD (selectedIndex ys u) 0 := by
  have hfa := selectedIndex_pos hne
  obtain ⟨hlen, habove, hbelow⟩ := firstIdxAbove_spec hfa
  have hlt : selectedIndex ys u - 1 < ys.length := by omega
  have h1 : ys[selectedIndex ys u]? = some (ys.getD (selectedIndex ys u) 0) := by
    rw [List.getElem?_eq_getElem hlen, List.getD_eq_getElem ys 0 hlen]
  have h0 : ys[selectedIndex ys u - 1]? = some (ys.getD (selectedIndex ys u - 1) 0) := by
    rw [List.getElem?_eq_getElem hlt, List.getD_eq_getElem ys 0 hlt]
  exact ⟨hlen, hbelow _ (by omega) _ h0, habove _ h1⟩

/-! ## Claim theorems -/

/-- C5: in `ForetoldQuestion.sample_community`, for every Cdf with
equal-length ascending `xs`/`ys` and every uniform draw `u`, the function
is total (it never divides by zero and never indexes out of range), and a
flat CDF segment (`ys[i] == ys[i-1]`) is never selected with `i > 0`: the
selected index straddles `u` (`ys[i-1] ≤ u < ys[i]`), so the division-
by-zero case guarded against in the spec is unreachable. -/
theorem c5_foretold_sample_total (xs ys : List ℚ) (u : ℚ)
    (hne : xs ≠ []) (hlen : xs.length = ys.length)
    (hxs : List.Sorted (· ≤ ·) xs) (hys : List.Sorted (· ≤ ·) ys) :
    (foretold_sample_community xs ys u).isSome = true ∧
      flatSelected ys u = false := by
  by_cases hi : selectedIndex ys u = 0
  · constructor
    · rw [foretold_sample_eq_head hi]
      cases xs with
      | nil => exact absurd rfl hne
      | cons a t => simp
    · simp [flatSelected, hi]
  · obtain ⟨hilen, hy0le, hy1gt⟩ := selectedIndex_straddle hi
    have hxlen : selectedIndex ys u < xs.length := hlen ▸ hilen
    have hxlt : selectedIndex ys u - 1 < xs.length := by omega
    have hylt : selectedIndex ys u - 1 < ys.length := by omega
    have hd : ¬(ys.getD (selectedIndex ys u) 0 - ys.getD (selectedIndex ys u - 1) 0 = 0) := by
      intro hzero
      have : ys.getD (selectedIndex ys u) 0 = ys.getD (selectedIndex ys u - 1) 0 := by
        linarith
      rw [this] at hy1gt
      exact absurd hy0le (not_le.mpr hy1gt)
    have hx0 : xs[selectedIndex ys u - 1]? = some (xs.getD (selectedIndex ys u - 1) 0) := by
      rw [List.getElem?_eq_getElem hxlt, List.getD_eq_getElem xs 0 hxlt]
    have hx1 : xs[selectedIndex ys u]? = some (xs.getD (selectedIndex ys u) 0) := by
      rw [List.getElem?_eq_getElem hxlen, List.getD_eq_getElem xs 0 hxlen]
    have hy0 : ys[selectedIndex ys u - 1]? = some (ys.getD (selectedIndex ys u - 1) 0) := by
      rw [List.getElem?_eq_getElem hylt, List.getD_eq_getElem ys 0 hylt]
    have hy1 : ys[selectedIndex ys u]? = some (ys.getD (selectedIndex ys u) 0) := by
      rw [List.getElem?_eq_getElem hilen, List.getD_eq_getElem ys 0 hilen]
    constructor
    · rw [foretold_sample_eq_interp hi hx0 hx1 hy0 hy1 hd]
      rfl
    · simp only [flatSelected, decide_eq_false_iff_not]
      intro hcon
      exact hd (by linarith [hcon.2])

/-- C5 witness: the theorem applied to the Cdf
`xs = [0,1,2]`, `ys = [1/5, 3/5, 1]` with draw `u = 2/5`. -/
theorem c5_foretold_sample_total_witness :
    ([0, 1, 2] : List ℚ) ≠ [] ∧
      (foretold_sample_community [0, 1, 2] [1/5, 3/5, 1] (2/5)).isSome = true ∧
      flatSelected [1/5, 3/5, 1] (2/5) = false :=
  ⟨by decide,
    c5_foretold_sample_total [0, 1, 2] [1/5, 3/5, 1] (2/5)
      (by decide) (by decide)
      (by norm_num [List.sorted_cons])
      (by norm_num [List.sorted_cons])⟩

/-- C7: `ForetoldQuestion.sample_community` implements inverse-CDF
sampling with left-edge bins: whenever some `ys[i] > u` exists it agrees
with the spec's algorithm (smallest index `i` with `ys[i] > u`; `xs[0]`
when `i == 0`; otherwise `xs[i]*w + xs[i-1]*(1-w)` with
`w = (u - ys[i-1]) / (ys[i] - ys[i-1])`); and on
`xs = [0,1,2]`, `ys = [0.2, 0.6, 1.0]` it returns `0` at `u = 0.1`,
`1/2 ∈ (0,1)` at `u = 0.4`, and `3/2 ∈ (1,2)` at `u = 0.8`. -/
theorem c7_inverse_cdf_sampling :
    (∀ (xs ys : List ℚ) (u : ℚ), xs ≠ [] → xs.length = ys.length →
        (∃ v ∈ ys, u < v) →
        foretold_sample_community xs ys u = inverse_cdf_sample_spec xs ys u) ∧
      foretold_sample_community [0, 1, 2] [1/5, 3/5, 1] (1/10) = some 0 ∧
      (foretold_sample_community [0, 1, 2] [1/5, 3/5, 1] (2/5) = some (1/2) ∧
        (0 : ℚ) < 1/2 ∧ (1/2 : ℚ) < 1) ∧
      (foretold_sample_community [0, 1, 2] [1/5, 3/5, 1] (4/5) = some (3/2) ∧
        (1 : ℚ) < 3/2 ∧ (3/2 : ℚ) < 2) := by
  refine ⟨?_, ?_, ⟨?_, by norm_num, by norm_num⟩, ⟨?_, by norm_num, by norm_num⟩⟩
  · intro xs ys u hne hlen hex
    have hs := firstIdxAbove_isSome hex
    obtain ⟨i, hfa⟩ := Option.isSome_iff_exists.mp hs
    have hsel : selectedIndex ys u = i := by
      unfold selectedIndex
      rw [hfa]
      rfl
    match i, hfa, hsel with
    | 0, hfa, hsel =>
        rw [foretold_sample_eq_head hsel]
        unfold inverse_cdf_sample_spec
        rw [hfa]
        cases xs with
        | nil => exact absurd rfl hne
        | cons a t => simp
    | Nat.succ j, hfa, hsel =>
        obtain ⟨hilen, _, _⟩ := firstIdxAbove_spec hfa
        have hi : selectedIndex ys u ≠ 0 := by omega
        obtain ⟨hilen2, hy0le, hy1gt⟩ := selectedIndex_straddle hi
        have hxlen : selectedIndex ys u < xs.length := hlen ▸ hilen2
        have hxlt : selectedIndex ys u - 1 < xs.length := by omega
        have hylt : selectedIndex ys u - 1 < ys.length := by omega
        have hd : ¬(ys.getD (selectedIndex ys u) 0 -
            ys.getD (selectedIndex ys u - 1) 0 = 0) := by
          intro hzero
          have heq : ys.getD (selectedIndex ys u) 0 =
              ys.getD (selectedIndex ys u - 1) 0 := by linarith
          rw [heq] at hy1gt
          exact absurd hy0le (not_le.mpr hy1gt)
        have hx0 : xs[selectedIndex ys u - 1]? =
            some (xs.getD (selectedIndex ys u - 1) 0) := by
          rw [List.getElem?_eq_getElem hxlt, List.getD_eq_getElem xs 0 hxlt]
        have hx1 : xs[selectedIndex ys u]? =
            some (xs.getD (selectedIndex ys u) 0) := by
          rw [List.getElem?_eq_getElem hxlen, List.getD_eq_getElem xs 0 hxlen]
        have hy0 : ys[selectedIndex ys u - 1]? =
            some (ys.getD (selectedIndex ys u - 1) 0) := by
          rw [List.getElem?_eq_getElem hylt, List.getD_eq_getElem ys 0 hylt]
        have hy1 : ys[selectedIndex ys u]? =
            some (ys.getD (selectedIndex ys u) 0) := by
          rw [List.getElem?_eq_getElem hilen2, List.getD_eq_getElem ys 0 hilen2]
        rw [foretold_sample_eq_interp hi hx0 hx1 hy0 hy1 hd]
        unfold inverse_cdf_sample_spec
        rw [hfa, hsel]
        simp [Nat.succ_sub_one]
  · norm_num [foretold_sample_community, selectedIndex, firstIdxAbove]
  · norm_num [foretold_sample_community, selectedIndex, firstIdxAbove]
  · norm_num [foretold_sample_community, selectedIndex, firstIdxAbove]

/-- C7 witness: the general refinement applied to the example Cdf at
`u = 2/5`. -/
theorem c7_inverse_cdf_sampling_witness :
    ([0, 1, 2] : List ℚ) ≠ [] ∧ (∃ v ∈ ([1/5, 3/5, 1] : List ℚ), (2/5 : ℚ) < v) ∧
      foretold_sample_community [0, 1, 2] [1/5, 3/5, 1] (2/5) =
        inverse_cdf_sample_spec [0, 1, 2] [1/5, 3/5, 1] (2/5) :=
  ⟨by decide, by norm_num,
    c7_inverse_cdf_sampling.1 [0, 1, 2] [1/5, 3/5, 1] (2/5)
      (by decide) (by decide) (by norm_num)⟩

/-- C10: when the uniform draw `u` is at or above every entry of `ys`
(all comparisons `ys > u` false), `np.argmax` yields index `0` and
`ForetoldQuestion.sample_community` returns `xs[0]`, the smallest x
coordinate. -/
theorem c10_argmax_all_false (xs ys : List ℚ) (u x0 : ℚ)
    (hall : ∀ v ∈ ys, v ≤ u) (hhead : xs.head? = some x0) :
    selectedIndex ys u = 0 ∧ foretold_sample_community xs ys u = some x0 := by
  have hfa := firstIdxAbove_eq_none hall
  have hsel : selectedIndex ys u = 0 := by
    unfold selectedIndex
    rw [hfa]
    rfl
  exact ⟨hsel, by rw [foretold_sample_eq_head hsel, hhead]⟩

/-- C10 witness: `ys = [1/5, 3/5]` never exceeds the draw `u = 1`, so the
sampler returns the first x coordinate `3`. -/
theorem c10_argmax_all_false_witness :
    (∀ v ∈ ([1/5, 3/5] : List ℚ), v ≤ (1 : ℚ)) ∧
      selectedIndex [1/5, 3/5] 1 = 0 ∧
      foretold_sample_community [3, 7] [1/5, 3/5] 1 = some 3 := by
  have hall : ∀ v ∈ ([1/5, 3/5] : List ℚ), v ≤ (1 : ℚ) := by
    intro v hv
    rcases List.mem_cons.mp hv with rfl | hv2
    · norm_num
    · rcases List.mem_cons.mp hv2 with rfl | hv3
      · norm_num
      · simp at hv3
  have h := c10_argmax_all_false [3, 7] [1/5, 3/5] 1 3 hall rfl
  exact ⟨hall, h.1, h.2⟩

/-- C2: for every input `LogisticParams` and every tail-openness
combination, `ContinuousQuestion.get_submission_params` returns
parameters with `0.01 ≤ scale ≤ 10`, `loc ≤ 3`, and — whenever both
tails are open — `high ≥ low + 0.01`. -/
theorem c2_submission_clipping_bounds (low_open high_open : Bool)
    (p : LogisticParams) :
    0.01 ≤ (ContinuousQuestion.get_submission_params low_open high_open p).scale ∧
      (ContinuousQuestion.get_submission_params low_open high_open p).scale ≤ 10 ∧
      (ContinuousQuestion.get_submission_params low_open high_open p).loc ≤ 3 ∧
      (low_open = true → high_open = true →
        (ContinuousQuestion.get_submission_params low_open high_open p).low + 0.01 ≤
          (ContinuousQuestion.get_submission_params low_open high_open p).high) := by
  simp only [ContinuousQuestion.get_submission_params]
  refine ⟨le_min (le_max_right _ _) (by norm_num), min_le_right _ _,
    min_le_right _ _, ?_⟩
  intro hl hh
  simp only [hl, hh, if_pos]
  exact le_max_right _ _

/-- C2 witness: the bounds at `loc = 0`, `scale = 1` with both tails
open. -/
theorem c2_submission_clipping_bounds_witness :
    0.01 ≤ (ContinuousQuestion.get_submission_params true true ⟨0, 1⟩).scale ∧
      (ContinuousQuestion.get_submission_params true true ⟨0, 1⟩).scale ≤ 10 ∧
      (ContinuousQuestion.get_submission_params true true ⟨0, 1⟩).loc ≤ 3 ∧
      (ContinuousQuestion.get_submission_params true true ⟨0, 1⟩).low + 0.01 ≤
        (ContinuousQuestion.get_submission_params true true ⟨0, 1⟩).high := by
  obtain ⟨h1, h2, h3, h4⟩ := c2_submission_clipping_bounds true true ⟨0, 1⟩
  exact ⟨h1, h2, h3, h4 rfl rfl⟩

/-- C3 counterexample: at `loc = 5`, `scale = 1` with the low tail open,
the source computes `low = max(cdf(0), 0.01) = 0.01` from the cdf of the
*unclipped* loc (`cdf(0) = 1/(1+e^5) < 0.01`), whereas the claimed
clipped-parameter cdf (`loc` clipped to 3) would give
`low = 1/(1+e^3) > 0.01`.  The two disagree, refuting the claim that the
clipped parameters are the ones whose CDF determines `low`. -/
theorem c3_clipped_cdf_counterexample :
    (ContinuousQuestion.get_submission_params true true ⟨5, 1⟩).low ≠
      (get_submission_params_clipped_cdf_spec true true ⟨5, 1⟩).low := by
  have hcdf5 : scipy_logistic_cdf 5 1 0 = 1 / (1 + Real.exp 5) := by
    unfold scipy_logistic_cdf
    norm_num
  have hcdf3 : scipy_logistic_cdf (min (5:ℝ) 3) (min (max (1:ℝ) 0.01) 10) 0 =
      1 / (1 + Real.exp 3) := by
    unfold scipy_logistic_cdf
    norm_num
  have hlow : (ContinuousQuestion.get_submission_params true true ⟨5, 1⟩).low =
      max (1 / (1 + Real.exp 5)) 0.01 := by
    simp only [ContinuousQuestion.get_submission_params, if_pos, hcdf5]
  have hlowspec : (get_submission_params_clipped_cdf_spec true true ⟨5, 1⟩).low =
      max (1 / (1 + Real.exp 3)) 0.01 := by
    simp only [get_submission_params_clipped_cdf_spec, if_pos, hcdf3]
  have hexp5 : Real.exp 1 ^ (5 : ℕ) = Real.exp 5 := by
    rw [Real.exp_one_pow]
    norm_num
  have hexp3 : Real.exp 1 ^ (3 : ℕ) = Real.exp 3 := by
    rw [Real.exp_one_pow]
    norm_num
  have h27lt : (2.7 : ℝ) < Real.exp 1 :=
    lt_trans (by norm_num) Real.exp_one_gt_d9
  have h28gt : Real.exp 1 < 2.72 :=
    lt_trans Real.exp_one_lt_d9 (by norm_num)
  have h5 : (99 : ℝ) < Real.exp 5 := by
    rw [← hexp5]
    have hp : (2.7 : ℝ) ^ (5 : ℕ) < Real.exp 1 ^ (5 : ℕ) :=
      pow_lt_pow_left h27lt (by norm_num) (by norm_num)
    nlinarith [hp]
  have h3 : Real.exp 3 < 99 := by
    rw [← hexp3]
    have hp : Real.exp 1 ^ (3 : ℕ) < (2.72 : ℝ) ^ (3 : ℕ) :=
      pow_lt_pow_left h28gt (le_of_lt (Real.exp_pos 1)) (by norm_num)
    nlinarith [hp]
  have hexp3pos : (0 : ℝ) < 1 + Real.exp 3 := by positivity
  have hexp5pos : (0 : ℝ) < 1 + Real.exp 5 := by positivity
  have hmax5 : max (1 / (1 + Real.exp 5)) 0.01 = (0.01 : ℝ) := by
    apply max_eq_right
    rw [div_le_iff hexp5pos]
    nlinarith [h5]
  have hmax3 : (0.01 : ℝ) < 1 / (1 + Real.exp 3) := by
    rw [lt_div_iff hexp3pos]
    nlinarith [h3]
  rw [hlow, hlowspec, hmax5, max_eq_left (le_of_lt hmax3)]
  exact ne_of_lt hmax3

/-- C3 amended: `low` and `high` are computed from the logistic CDF of
the *original, unclipped* `loc`/`scale`; consequently they coincide with
the claimed clipped-parameter CDF exactly when the input parameters are
already within the clipping bounds (`loc ≤ 3`, `0.01 ≤ scale ≤ 10`), so
that clipping is a no-op. -/
theorem c3_cdf_uses_unclipped_params (low_open high_open : Bool)
    (p : LogisticParams) (hloc : p.loc ≤ 3) (hs1 : 0.01 ≤ p.scale)
    (hs2 : p.scale ≤ 10) :
    ContinuousQuestion.get_submission_params low_open high_open p =
      get_submission_params_clipped_cdf_spec low_open high_open p := by
  have h1 : min p.loc 3 = p.loc := min_eq_left hloc
  have h2 : min (max p.scale 0.01) 10 = p.scale := by
    rw [max_eq_left hs1, min_eq_left hs2]
  simp only [ContinuousQuestion.get_submission_params,
    get_submission_params_clipped_cdf_spec, h1, h2]

/-- C3 witness: in-bounds parameters `loc = 0`, `scale = 1`, where the
source and the spec's clipped-CDF computation agree. -/
theorem c3_cdf_uses_unclipped_params_witness :
    (0 : ℝ) ≤ 3 ∧ (0.01 : ℝ) ≤ 1 ∧ (1 : ℝ) ≤ 10 ∧
      ContinuousQuestion.get_submission_params true true ⟨0, 1⟩ =
        get_submission_params_clipped_cdf_spec true true ⟨0, 1⟩ :=
  ⟨by norm_num, by norm_num, by norm_num,
    c3_cdf_uses_unclipped_params true true ⟨0, 1⟩ (by norm_num) (by norm_num)
      (by norm_num)⟩

lemma linear_normalize_eval (mn mx x : ℝ) :
    LinearQuestion.normalize_samples ⟨mn, mx⟩ x = (x - mn) / (mx - mn) := rfl

lemma linear_denormalize_eval (mn mx y : ℝ) :
    LinearQuestion.denormalize_samples ⟨mn, mx⟩ y = mn + (mx - mn) * y := rfl

lemma log_normalize_eval (mn mx r x : ℝ) :
    LogQuestion.normalized_from_true_value ⟨mn, mx⟩ r x =
      Real.logb r (max (1 + (x - mn) * (r - 1) / (mx - mn)) 1e-9) := rfl

lemma log_denormalize_eval (mn mx r y : ℝ) :
    LogQuestion.true_from_normalized_value ⟨mn, mx⟩ r y =
      mn + (mx - mn) * ((r ^ y - 1) / (r - 1)) := rfl

lemma date_normalize_eval (dmin dmax d : ℤ) :
    LinearDateQuestion.normalize_dates ⟨dmin, dmax⟩ d =
      ((d - dmin : ℤ) : ℚ) / ((dmax - dmin : ℤ) : ℚ) := rfl

lemma date_denormalize_eval (dmin dmax : ℤ) (y : ℚ) :
    LinearDateQuestion.denormalize_samples ⟨dmin, dmax⟩ y =
      dmin + py_round (((dmax - dmin : ℤ) : ℚ) * y) := rfl

lemma py_round_intCast (k : ℤ) : py_round (k : ℚ) = k := by
  unfold py_round
  norm_num

lemma div_le_div_of_le_of_pos {α : Type} [LinearOrderedField α] {a b c : α}
    (h : a ≤ b) (hc : 0 < c) : a / c ≤ b / c := by
  rw [div_eq_mul_inv, div_eq_mul_inv]
  exact mul_le_mul_of_nonneg_right h (le_of_lt (inv_pos.mpr hc))

/-- C1 counterexample: a question range with `max > min`, a
`deriv_ratio r = 1e-20` (positive and not 1) and the value `x = 0`
strictly inside the open range for which the log-scale round-trip
`true_from_normalized_value ∘ normalized_from_true_value` misses `x` by
about 9, far beyond the claimed `1e-6` tolerance: the `max(..., 1e-9)`
floor in `normalized_from_true_value` is active for this in-range value
because `r < 1e-9`. -/
theorem c1_round_trip_counterexample :
    (-(10^20/(10^10+1)) : ℝ) < 10^10/(10^10+1) ∧
      (0 : ℝ) < 1e-20 ∧ (1e-20 : ℝ) ≠ 1 ∧
      (-(10^20/(10^10+1)) : ℝ) < 0 ∧ (0 : ℝ) < 10^10/(10^10+1) ∧
      1e-6 < |LogQuestion.true_from_normalized_value
          ⟨-(10^20/(10^10+1)), 10^10/(10^10+1)⟩ 1e-20
          (LogQuestion.normalized_from_true_value
            ⟨-(10^20/(10^10+1)), 10^10/(10^10+1)⟩ 1e-20 0) - 0| := by
  refine ⟨by norm_num, by norm_num, by norm_num, by norm_num, by norm_num, ?_⟩
  have harg : (1 : ℝ) + ((0 : ℝ) - -(10^20/(10^10+1))) * ((1e-20) - 1) /
      ((10^10/(10^10+1) : ℝ) - -(10^20/(10^10+1))) = 1e-10 := by
    norm_num
  have hnorm : LogQuestion.normalized_from_true_value
      ⟨-(10^20/(10^10+1)), 10^10/(10^10+1)⟩ 1e-20 0 =
        Real.logb 1e-20 1e-9 := by
    rw [log_normalize_eval, harg, max_eq_right (by norm_num : (1e-10 : ℝ) ≤ 1e-9)]
  have hlogb : Real.logb 1e-20 (1e-9 : ℝ) = 9/20 := by
    have h9 : (1e-9 : ℝ) = (10 : ℝ) ^ (-9 : ℤ) := by norm_num
    have h20 : (1e-20 : ℝ) = (10 : ℝ) ^ (-20 : ℤ) := by norm_num
    have hl10 : Real.log 10 ≠ 0 := ne_of_gt (Real.log_pos (by norm_num))
    unfold Real.logb
    rw [h9, h20, Real.log_zpow, Real.log_zpow]
    field_simp
    ring
  have hrpow : (1e-20 : ℝ) ^ ((9 : ℝ)/20) = 1e-9 := by
    have h20R : (1e-20 : ℝ) = (10 : ℝ) ^ ((-20 : ℤ) : ℝ) := by
      rw [Real.rpow_intCast]
      norm_num
    rw [h20R, ← Real.rpow_mul (by norm_num : (0 : ℝ) ≤ 10)]
    have he : (((-20 : ℤ) : ℝ) * ((9 : ℝ)/20)) = ((-9 : ℤ) : ℝ) := by
      push_cast
      ring
    rw [he, Real.rpow_intCast]
    norm_num
  rw [hnorm, log_denormalize_eval, hlogb, hrpow]
  have hv : (-(10^20/(10^10+1)) : ℝ) +
      ((10^10/(10^10+1) : ℝ) - -(10^20/(10^10+1))) * (((1e-9 : ℝ) - 1)/((1e-20) - 1)) -
      0 < -(1e-6) := by
    norm_num
  rw [abs_of_neg (by linarith)]
  linarith

/-- C1 amended: `denormalize(normalize(x)) = x` exactly (hence within
any tolerance) for every `x` strictly inside the open range, for the
Linear transform with `max > min`, for the Logarithmic transform with
`max > min` and `deriv_ratio r > 0`, `r ≠ 1`, **`r ≥ 1e-9`** (so that
the `1e-9` numeric floor is inactive on in-range values — for smaller
`r` the floor can bite and the round-trip can err beyond `1e-6`, see the
counterexample), and — exactly to the day — for the Date transform with
`day_span > 0`. -/
theorem c1_round_trip (mn mx r x : ℝ) (dmin dmax d : ℤ) :
    (mn < mx → mn < x → x < mx →
        LinearQuestion.denormalize_samples ⟨mn, mx⟩
          (LinearQuestion.normalize_samples ⟨mn, mx⟩ x) = x) ∧
      (mn < mx → 0 < r → r ≠ 1 → 1e-9 ≤ r → mn < x → x < mx →
        LogQuestion.true_from_normalized_value ⟨mn, mx⟩ r
          (LogQuestion.normalized_from_true_value ⟨mn, mx⟩ r x) = x) ∧
      (dmin < dmax → dmin < d → d < dmax →
        LinearDateQuestion.denormalize_samples ⟨dmin, dmax⟩
          (LinearDateQuestion.normalize_dates ⟨dmin, dmax⟩ d) = d) := by
  refine ⟨?_, ?_, ?_⟩
  · intro hmm _ _
    have hwne : mx - mn ≠ 0 := ne_of_gt (sub_pos.mpr hmm)
    rw [linear_normalize_eval, linear_denormalize_eval]
    field_simp
  · intro hmm hr0 hr1 hr9 hx1 hx2
    have hw : (0 : ℝ) < mx - mn := sub_pos.mpr hmm
    have hwne : mx - mn ≠ 0 := ne_of_gt hw
    have hr1ne : r - 1 ≠ 0 := sub_ne_zero.mpr hr1
    rw [log_normalize_eval, log_denormalize_eval]
    have hkey : ∀ t : ℝ, t = 1 + (x - mn) * (r - 1) / (mx - mn) →
        1e-9 ≤ t ∧ 0 < t := by
      intro t ht
      rcases lt_or_gt_of_ne hr1 with hlt | hgt
      · have hs : r - 1 < (x - mn) * (r - 1) / (mx - mn) := by
          rw [lt_div_iff hw]
          nlinarith
        have htr : r < t := by rw [ht]; linarith
        exact ⟨le_trans hr9 (le_of_lt htr), lt_trans hr0 htr⟩
      · have hs : (0 : ℝ) < (x - mn) * (r - 1) / (mx - mn) :=
          div_pos (mul_pos (by linarith) (by linarith)) hw
        have ht1 : 1 < t := by rw [ht]; linarith
        exact ⟨le_trans (by norm_num) (le_of_lt ht1), by linarith⟩
    obtain ⟨ht9, htpos⟩ := hkey _ rfl
    rw [max_eq_left ht9, Real.rpow_logb hr0 hr1 htpos]
    field_simp
    ring
  · intro hlt _ _
    rw [date_normalize_eval, date_denormalize_eval]
    have hne : ((dmax - dmin : ℤ) : ℚ) ≠ 0 := by
      have hz : dmax - dmin ≠ 0 := by omega
      exact_mod_cast hz
    have hcancel : ((dmax - dmin : ℤ) : ℚ) *
        (((d - dmin : ℤ) : ℚ) / ((dmax - dmin : ℤ) : ℚ)) = ((d - dmin : ℤ) : ℚ) := by
      rw [mul_comm]
      exact div_mul_cancel₀ _ hne
    rw [hcancel, py_round_intCast]
    omega

/-- C1 witness: the three round-trips at concrete inputs — Linear on
`[0, 1]` at `x = 1/2`, Logarithmic on `[0, 100]` with `deriv_ratio 10`
at `x = 50`, Date on day span `[0, 10]` at day `4`. -/
theorem c1_round_trip_witness :
    (LinearQuestion.denormalize_samples ⟨0, 1⟩
        (LinearQuestion.normalize_samples ⟨0, 1⟩ (1/2)) = 1/2) ∧
      (LogQuestion.true_from_normalized_value ⟨0, 100⟩ 10
          (LogQuestion.normalized_from_true_value ⟨0, 100⟩ 10 50) = 50) ∧
      (LinearDateQuestion.denormalize_samples ⟨0, 10⟩
          (LinearDateQuestion.normalize_dates ⟨0, 10⟩ 4) = 4) :=
  ⟨(c1_round_trip 0 1 10 (1/2) 0 10 4).1 (by norm_num) (by norm_num) (by norm_num),
    (c1_round_trip 0 100 10 50 0 10 4).2.1 (by norm_num) (by norm_num)
      (by norm_num) (by norm_num) (by norm_num) (by norm_num),
    (c1_round_trip 0 1 10 (1/2) 0 10 4).2.2 (by norm_num) (by norm_num)
      (by norm_num)⟩

/-- C8: `normalize` is monotone increasing in its input for all three
scale kinds — Linear and Date on any valid range, Logarithmic for any
`deriv_ratio r > 0`, `r ≠ 1` (weak monotonicity over all real inputs;
on the region where the `1e-9` floor is active the map is constant). -/
theorem c8_normalize_monotone :
    (∀ mn mx x y : ℝ, mn < mx → x ≤ y →
        LinearQuestion.normalize_samples ⟨mn, mx⟩ x ≤
          LinearQuestion.normalize_samples ⟨mn, mx⟩ y) ∧
      (∀ mn mx r x y : ℝ, mn < mx → 0 < r → r ≠ 1 → x ≤ y →
        LogQuestion.normalized_from_true_value ⟨mn, mx⟩ r x ≤
          LogQuestion.normalized_from_true_value ⟨mn, mx⟩ r y) ∧
      (∀ dmin dmax d e : ℤ, dmin < dmax → d ≤ e →
        LinearDateQuestion.normalize_dates ⟨dmin, dmax⟩ d ≤
          LinearDateQuestion.normalize_dates ⟨dmin, dmax⟩ e) := by
  refine ⟨?_, ?_, ?_⟩
  · intro mn mx x y hmm hxy
    rw [linear_normalize_eval, linear_normalize_eval]
    exact div_le_div_of_le_of_pos (by linarith) (sub_pos.mpr hmm)
  · intro mn mx r x y hmm hr0 hr1 hxy
    have hw : (0 : ℝ) < mx - mn := sub_pos.mpr hmm
    rw [log_normalize_eval, log_normalize_eval]
    have hposx : (0 : ℝ) < max (1 + (x - mn) * (r - 1) / (mx - mn)) 1e-9 :=
      lt_of_lt_of_le (by norm_num) (le_max_right _ _)
    have hposy : (0 : ℝ) < max (1 + (y - mn) * (r - 1) / (mx - mn)) 1e-9 :=
      lt_of_lt_of_le (by norm_num) (le_max_right _ _)
    rcases lt_or_gt_of_ne hr1 with hlt | hgt
    · have hmono : 1 + (y - mn) * (r - 1) / (mx - mn) ≤
          1 + (x - mn) * (r - 1) / (mx - mn) := by
        have hm : (y - mn) * (r - 1) ≤ (x - mn) * (r - 1) :=
          mul_le_mul_of_nonpos_right (by linarith) (by linarith)
        have := div_le_div_of_le_of_pos hm hw
        linarith
      exact (Real.logb_le_logb_of_base_lt_one hr0 hlt hposx hposy).mpr
        (max_le_max hmono le_rfl)
    · have hmono : 1 + (x - mn) * (r - 1) / (mx - mn) ≤
          1 + (y - mn) * (r - 1) / (mx - mn) := by
        have hm : (x - mn) * (r - 1) ≤ (y - mn) * (r - 1) :=
          mul_le_mul_of_nonneg_right (by linarith) (by linarith)
        have := div_le_div_of_le_of_pos hm hw
        linarith
      exact Real.logb_le_logb_of_le hgt hposx (max_le_max hmono le_rfl)
  · intro dmin dmax d e hlt hde
    rw [date_normalize_eval, date_normalize_eval]
    have hpos : (0 : ℚ) < ((dmax - dmin : ℤ) : ℚ) := by
      have hz : (0 : ℤ) < dmax - dmin := by omega
      exact_mod_cast hz
    exact div_le_div_of_le_of_pos (by exact_mod_cast (by omega : d - dmin ≤ e - dmin)) hpos

/-- C8 witness: monotonicity at concrete inputs — Linear on `[0, 1]`
from `0` to `1`, Logarithmic on `[0, 100]` with `deriv_ratio 10` from
`10` to `20`, Date on span `[0, 10]` from day `2` to day `5`. -/
theorem c8_normalize_monotone_witness :
    (LinearQuestion.normalize_samples ⟨0, 1⟩ 0 ≤
        LinearQuestion.normalize_samples ⟨0, 1⟩ 1) ∧
      (LogQuestion.normalized_from_true_value ⟨0, 100⟩ 10 10 ≤
        LogQuestion.normalized_from_true_value ⟨0, 100⟩ 10 20) ∧
      (LinearDateQuestion.normalize_dates ⟨0, 10⟩ 2 ≤
        LinearDateQuestion.normalize_dates ⟨0, 10⟩ 5) :=
  ⟨c8_normalize_monotone.1 0 1 0 1 (by norm_num) (by norm_num),
    c8_normalize_monotone.2.1 0 100 10 10 20 (by norm_num) (by norm_num)
      (by norm_num) (by norm_num),
    c8_normalize_monotone.2.2 0 10 2 5 (by norm_num) (by norm_num)⟩

/-- C6 counterexample: the above-range candidate is
`abs(np.random.logistic(1, 0.02))` (line 458), not
`1 + abs(Logistic(0, 0.02))`.  For the standard logistic variate
`-10` the draw from `Logistic(1, 0.02)` is `1 - 1/5 = 4/5`, so the
candidate equals `4/5 < 1`, refuting both the claimed form
`1 + abs(L')` (which would give `6/5` here) and the claimed bound
`≥ 1`. -/
theorem c6_above_range_counterexample :
    sample_above_range (-10) = 4/5 ∧ sample_above_range (-10) < 1 ∧
      sample_above_range (-10) ≠ 1 + |outside_range_scale * (-10)| := by
  have h : sample_above_range (-10) = 4/5 := by
    unfold sample_above_range np_random_logistic outside_range_scale
    rw [show (1 : ℚ) + 0.02 * (-10) = 4/5 by norm_num, abs_of_pos (by norm_num)]
  have habs : |outside_range_scale * (-10 : ℚ)| = 1/5 := by
    unfold outside_range_scale
    rw [show (0.02 : ℚ) * (-10) = -(1/5) by norm_num, abs_neg, abs_of_pos (by norm_num)]
  refine ⟨h, by rw [h]; norm_num, by rw [h, habs]; norm_num⟩

/-- C6 amended: the below-range candidate is `-abs(L)` for a draw `L`
from `Logistic(0, 0.02)`, hence always `≤ 0`, as claimed; the
above-range candidate, however, is `abs(M)` for a draw `M` from
`Logistic(1, 0.02)` — it is always `≥ 0` but not always `≥ 1` and is
not of the form `1 + abs(Logistic(0, 0.02))`. -/
theorem c6_outside_range_samples (l m : ℚ) :
    sample_below_range l = -|outside_range_scale * l| ∧
      sample_below_range l ≤ 0 ∧
      sample_above_range m = |1 + outside_range_scale * m| ∧
      0 ≤ sample_above_range m := by
  refine ⟨?_, ?_, rfl, ?_⟩
  · unfold sample_below_range np_random_logistic
    rw [zero_add]
  · exact neg_nonpos.mpr (abs_nonneg _)
  · exact abs_nonneg _

/-- C4 counterexample: on a question with no prediction histogram (and
hence an empty distribution cache), `LinearDateQuestion.sample_community`
does not raise the distinguishable "no predictions" `ValueError`: it
consumes the two `np.random.logistic` draws (sampling work) and then
fails with an `AttributeError` from the histogram lookup, while the base
class's guarded `sample_community` raises the `ValueError` after zero
draws. -/
theorem c4_date_sample_community_counterexample :
    LinearDateQuestion.sample_community id
        (⟨none, 0, 1, none⟩ : QuestionState) [0, 0, 0, 0] =
      (Except.error (PyErr.attributeError "prediction_histogram"), 2) ∧
      ContinuousQuestion.sample_community id
          (⟨none, 0, 1, none⟩ : QuestionState) [0, 0, 0, 0] =
        (Except.error (PyErr.valueError
          "There are currently no predictions for this question"), 0) ∧
      (2 : ℕ) ≠ 0 :=
  ⟨rfl, rfl, by decide⟩

/-- C4 amended: when no prediction histogram is available, the base
`ContinuousQuestion.sample_community` raises the distinguishable
`ValueError` before any sampling work (zero draws consumed), but
`LinearDateQuestion.sample_community` lacks the `has_predictions` guard:
with an empty cache and at least two draws available it consumes two
logistic draws and then fails with an `AttributeError` instead. -/
theorem c4_no_histogram_behavior (denorm : ℚ → ℚ) (q : QuestionState)
    (draws : List ℚ) (hh : q.prediction_histogram = none) :
    ContinuousQuestion.sample_community denorm q draws =
      (Except.error (PyErr.valueError
        "There are currently no predictions for this question"), 0) ∧
      (q.dist_cache = none → ∀ d1 d2 rest, draws = d1 :: d2 :: rest →
        LinearDateQuestion.sample_community denorm q draws =
          (Except.error (PyErr.attributeError "prediction_histogram"), 2)) := by
  constructor
  · unfold ContinuousQuestion.sample_community
    rw [hh]
    rfl
  · intro hc d1 d2 rest hd
    subst hd
    unfold LinearDateQuestion.sample_community
      ContinuousQuestion.sample_normalized_community
      ContinuousQuestion.community_dist_in_range
    rw [hc, hh]

/-- C4 witness: the amended behavior on the concrete empty question
state with four available draws. -/
theorem c4_no_histogram_behavior_witness :
    (⟨none, 0, 1, none⟩ : QuestionState).prediction_histogram = none ∧
      ContinuousQuestion.sample_community (fun s => s)
          (⟨none, 0, 1, none⟩ : QuestionState) [0, 0, 0, 0] =
        (Except.error (PyErr.valueError
          "There are currently no predictions for this question"), 0) ∧
      LinearDateQuestion.sample_community (fun s => s)
          (⟨none, 0, 1, none⟩ : QuestionState) [0, 0, 0, 0] =
        (Except.error (PyErr.attributeError "prediction_histogram"), 2) := by
  obtain ⟨h1, h2⟩ := c4_no_histogram_behavior (fun s => s)
    ⟨none, 0, 1, none⟩ [0, 0, 0, 0] rfl
  exact ⟨rfl, h1, h2 rfl 0 0 [0, 0] rfl⟩

/-- C9 counterexample: build the categorical once from a histogram with
densities `[1, 0]` (populating the cache), then refresh the question
with a histogram whose densities are `[0, 1]`.  The next
`community_dist_in_range` call returns the cached `[1, 0]` — built from
the pre-refresh histogram — not the new histogram's `[0, 1]`: the
`lru_cache` is keyed by the question object and survives
`refresh_question`. -/
theorem c9_cache_survives_refresh_counterexample :
    ContinuousQuestion.community_dist_in_range
        (⟨some [(0, 0, 1), (1, 0, 0)], 0, 1, none⟩ : QuestionState) =
      Except.ok ([1, 0],
        (⟨some [(0, 0, 1), (1, 0, 0)], 0, 1, some [1, 0]⟩ : QuestionState)) ∧
      ContinuousQuestion.community_dist_in_range
          (MetaculusQuestion.refresh_question
            (⟨some [(0, 0, 1), (1, 0, 0)], 0, 1, some [1, 0]⟩ : QuestionState)
            (some [(0, 0, 0), (1, 0, 1)]) 0 1) =
        Except.ok ([1, 0],
          (⟨some [(0, 0, 0), (1, 0, 1)], 0, 1, some [1, 0]⟩ : QuestionState)) ∧
      histogram_densities [(0, 0, 0), (1, 0, 1)] = [0, 1] ∧
      ([1, 0] : List ℚ) ≠ [0, 1] := by
  refine ⟨rfl, rfl, rfl, ?_⟩
  intro h
  exact absurd (List.head_eq_of_cons_eq h) one_ne_zero

/-- C9 amended: the memoized categorical is *not* invalidated by
`refresh_question`: whenever the cache holds a distribution `d`, a
`community_dist_in_range` call after any refresh still returns `d`,
regardless of the new histogram. -/
theorem c9_cache_not_invalidated (q : QuestionState) (d : List ℚ)
    (newHist : Option (List (ℚ × ℚ × ℚ))) (newLow newHigh : ℚ)
    (hc : q.dist_cache = some d) :
    ContinuousQuestion.community_dist_in_range
        (MetaculusQuestion.refresh_question q newHist newLow newHigh) =
      Except.ok (d, MetaculusQuestion.refresh_question q newHist newLow newHigh) := by
  unfold ContinuousQuestion.community_dist_in_range
    MetaculusQuestion.refresh_question
  rw [hc]

/-- C9 witness: the stale-cache read after a concrete refresh. -/
theorem c9_cache_not_invalidated_witness :
    (⟨some [(0, 0, 1), (1, 0, 0)], 0, 1, some [1, 0]⟩ : QuestionState).dist_cache =
        some [1, 0] ∧
      ContinuousQuestion.community_dist_in_range
          (MetaculusQuestion.refresh_question
            (⟨some [(0, 0, 1), (1, 0, 0)], 0, 1, some [1, 0]⟩ : QuestionState)
            (some [(0, 0, 0), (1, 0, 1)]) 0 1) =
        Except.ok ([1, 0],
          MetaculusQuestion.refresh_question
            (⟨some [(0, 0, 1), (1, 0, 0)], 0, 1, some [1, 0]⟩ : QuestionState)
            (some [(0, 0, 0), (1, 0, 1)]) 0 1) :=
  ⟨rfl, c9_cache_not_invalidated _ [1, 0] _ 0 1 rfl⟩
